import Mathlib

/-!
Verification development for the LinkedIn job-scraper scripts of this
repository.  The single source file contains two near-identical scraper
variants (the primary scraper and a second "Job Bot" variant) plus an
image-to-PDF helper.

Modelling conventions:
* Python strings are `List Char`; Python integers are `Nat` (they are
  unbounded and all values here are non-negative).
* `str.lower()` is modelled by `Char.toLower` applied pointwise, which is
  exactly Python's lowering on the ASCII range (all selector strings and
  unit words in the code are ASCII).
* `'pat' in s` (Python substring test) is `containsSub`.
* `re.search(r'(\d+)', s)` is `firstDigitRun`, returning the value of the
  first maximal digit run, `none` when the string holds no digit.
-/

namespace JobBot

open List

/-- ASCII digit test, `48 ≤ c ≤ 57` on code points; models `\d` of the
regular expressions for the ASCII inputs the scraper handles. -/
def isDig (c : Char) : Bool := 48 ≤ c.toNat && c.toNat ≤ 57

/-- `leadsWith pat l` is true when `pat` occurs at the very start of `l`. -/
def leadsWith : List Char → List Char → Bool
  | [], _ => true
  | _ :: _, [] => false
  | p :: ps, c :: cs => p == c && leadsWith ps cs

/-- Python's substring test `pat in l`. -/
def containsSub (pat : List Char) : List Char → Bool
  | [] => leadsWith pat []
  | c :: cs => leadsWith pat (c :: cs) || containsSub pat cs

/-- Value of a decimal digit string, as Python's `int()` computes it. -/
def digitsVal (ds : List Char) : Nat :=
  ds.foldl (fun a c => a * 10 + (c.toNat - 48)) 0

/-- `re.search(r'(\d+)', s)`: value of the first maximal run of digits,
`none` when the string has no digit (the `re.search` result is `None`). -/
def firstDigitRun : List Char → Option Nat
  | [] => none
  | c :: cs =>
    if isDig c then some (digitsVal (c :: cs.takeWhile isDig))
    else firstDigitRun cs

/-- Pointwise ASCII lowering, modelling `str.lower()`. -/
def lowerStr (s : List Char) : List Char := s.map Char.toLower

/-- `_parse_time_to_minutes` (identical in both scraper variants):
normalizes a relative posted-time string to minutes for sorting, with
999999 as the unparseable sentinel. -/
def parse_time_to_minutes (s : List Char) : Nat :=
  if s = [] then 999999
  else
    let t := lowerStr s
    match firstDigitRun t with
    | none => 999999
    | some num =>
      if containsSub "minute".toList t then num
      else if containsSub "hour".toList t then num * 60
      else if containsSub "day".toList t then num * 1440
      else if containsSub "week".toList t then num * 10080
      else if containsSub "month".toList t then num * 43200
      else 999999

/-- The phrase tested by `_parse_applicant_count`. -/
def amongFirst : List Char := "be among the first".toList

/-- `_parse_applicant_count` of the primary scraper.  The bare `except`
around the phrase branch makes the function total: a missing digit falls
back to 0. -/
def parse_applicant_count (s : List Char) : Nat :=
  if s = [] then 0
  else
    let t := lowerStr s
    if containsSub amongFirst t then
      match firstDigitRun t with
      | some n => n
      | none => 0
    else
      match firstDigitRun t with
      | some n => n
      | none => 0

/-- `_parse_applicant_count` of the Job Bot variant.  In the phrase branch
the code calls `re.search(r'(\d+)', count_str).group(1)` with no
exception handler, so a phrase-bearing string without digits raises
`AttributeError` (`re.search` returns `None`); that escape is modelled
as `none`. -/
def parse_applicant_count_jb (s : List Char) : Option Nat :=
  if s = [] then some 0
  else
    let t := lowerStr s
    if containsSub amongFirst t then
      match firstDigitRun t with
      | some n => some n
      | none => none
    else
      some ((firstDigitRun t).getD 0)

/-! ### Helper lemmas on the string primitives -/

theorem leadsWith_self (pat r : List Char) : leadsWith pat (pat ++ r) = true := by
  induction pat with
  | nil => rfl
  | cons p ps ih => simp [leadsWith, ih]

theorem containsSub_here (pat r : List Char) : containsSub pat (pat ++ r) = true := by
  cases pat with
  | nil => cases r <;> simp [containsSub, leadsWith]
  | cons p ps =>
    simp only [List.cons_append, containsSub, Bool.or_eq_true]
    exact Or.inl (leadsWith_self (p :: ps) r)

theorem containsSub_append_left (a : List Char) {pat l : List Char}
    (h : containsSub pat l = true) : containsSub pat (a ++ l) = true := by
  induction a with
  | nil => simpa using h
  | cons c cs ih =>
    simp only [List.cons_append, containsSub, Bool.or_eq_true]
    exact Or.inr ih

theorem mem_of_leadsWith {pat l : List Char} (h : leadsWith pat l = true) :
    ∀ c ∈ pat, c ∈ l := by
  induction pat generalizing l with
  | nil => simp
  | cons p ps ih =>
    cases l with
    | nil => simp [leadsWith] at h
    | cons d ds =>
      simp only [leadsWith, Bool.and_eq_true, beq_iff_eq] at h
      obtain ⟨rfl, h2⟩ := h
      intro c hc
      rcases List.mem_cons.mp hc with rfl | hc
      · exact List.mem_cons_self _ _
      · exact List.mem_cons_of_mem _ (ih h2 c hc)

theorem mem_of_containsSub {pat l : List Char} (h : containsSub pat l = true) :
    ∀ c ∈ pat, c ∈ l := by
  induction l with
  | nil =>
    cases pat with
    | nil => simp
    | cons p ps => simp [containsSub, leadsWith] at h
  | cons d ds ih =>
    simp only [containsSub, Bool.or_eq_true] at h
    rcases h with h | h
    · exact mem_of_leadsWith h
    · exact fun c hc => List.mem_cons_of_mem _ (ih h c hc)

theorem containsSub_eq_false {pat l : List Char} {c : Char}
    (hc : c ∈ pat) (hl : c ∉ l) : containsSub pat l = false := by
  rcases h : containsSub pat l with _ | _
  · rfl
  · exact absurd (mem_of_containsSub h c hc) hl

/-! ### Lemmas on lowering and digit runs -/

theorem toNat_ofNat_valid {n : Nat} (h : n < 55296) : (Char.ofNat n).toNat = n := by
  have hv : n.isValidChar := Or.inl h
  simp only [Char.ofNat, dif_pos hv, Char.ofNatAux, Char.toNat]
  rfl

theorem toLower_of_isDig {c : Char} (h : isDig c = true) : Char.toLower c = c := by
  simp only [isDig, Bool.and_eq_true, decide_eq_true_eq] at h
  unfold Char.toLower
  rw [if_neg]
  omega

theorem toLower_eq_ite (c : Char) :
    Char.toLower c = if c.toNat ≥ 65 ∧ c.toNat ≤ 90 then Char.ofNat (c.toNat + 32) else c :=
  rfl

theorem isDig_toLower (c : Char) : isDig (Char.toLower c) = isDig c := by
  rw [toLower_eq_ite]
  by_cases h : c.toNat ≥ 65 ∧ c.toNat ≤ 90
  · rw [if_pos h]
    have hval : (Char.ofNat (c.toNat + 32)).toNat = c.toNat + 32 :=
      toNat_ofNat_valid (by omega)
    simp only [isDig, hval]
    have h1 : (48 ≤ c.toNat + 32 && c.toNat + 32 ≤ 57) = false := by
      simp only [Bool.and_eq_false_iff, decide_eq_false_iff_not]
      omega
    have h2 : (48 ≤ c.toNat && c.toNat ≤ 57) = false := by
      simp only [Bool.and_eq_false_iff, decide_eq_false_iff_not]
      omega
    rw [h1, h2]
  · rw [if_neg h]

theorem lowerStr_of_digits {ds : List Char} (h : ∀ c ∈ ds, isDig c = true) :
    lowerStr ds = ds := by
  induction ds with
  | nil => rfl
  | cons c cs ih =>
    simp only [lowerStr, List.map_cons]
    rw [toLower_of_isDig (h c (List.mem_cons_self _ _))]
    have := ih (fun x hx => h x (List.mem_cons_of_mem _ hx))
    simpa [lowerStr] using this

theorem takeWhile_isDig_append {ds rest : List Char}
    (h : ∀ c ∈ ds, isDig c = true) (hrest : rest.takeWhile isDig = []) :
    (ds ++ rest).takeWhile isDig = ds := by
  induction ds with
  | nil => simp only [List.nil_append]; exact hrest
  | cons c cs ih =>
    simp only [List.cons_append, List.takeWhile_cons,
      h c (List.mem_cons_self _ _)]
    simp only [if_true]
    rw [ih (fun x hx => h x (List.mem_cons_of_mem _ hx))]

theorem firstDigitRun_of_run {ds rest : List Char} (hne : ds ≠ [])
    (h : ∀ c ∈ ds, isDig c = true) (hrest : rest.takeWhile isDig = []) :
    firstDigitRun (ds ++ rest) = some (digitsVal ds) := by
  cases ds with
  | nil => exact absurd rfl hne
  | cons d ds' =>
    simp only [List.cons_append, firstDigitRun,
      h d (List.mem_cons_self _ _), if_true]
    rw [show ds'.append rest = ds' ++ rest from rfl,
      takeWhile_isDig_append (fun x hx => h x (List.mem_cons_of_mem _ hx)) hrest]

theorem firstDigitRun_of_noDigit {l : List Char} (h : ∀ c ∈ l, isDig c = false) :
    firstDigitRun l = none := by
  induction l with
  | nil => rfl
  | cons c cs ih =>
    simp only [firstDigitRun, h c (List.mem_cons_self _ _)]
    simp only [Bool.false_eq_true, if_false]
    exact ih (fun x hx => h x (List.mem_cons_of_mem _ hx))

/-! ### The five time units of `_parse_time_to_minutes` -/

/-- The five unit words recognised by `_parse_time_to_minutes`, in the
order the code tests them. -/
inductive TimeUnit
  | minute
  | hour
  | day
  | week
  | month
deriving DecidableEq

/-- The substring tested for a given unit. -/
def unitWord : TimeUnit → List Char
  | .minute => "minute".toList
  | .hour => "hour".toList
  | .day => "day".toList
  | .week => "week".toList
  | .month => "month".toList

/-- The minutes-per-unit factor the code multiplies by. -/
def unitFactor : TimeUnit → Nat
  | .minute => 1
  | .hour => 60
  | .day => 1440
  | .week => 10080
  | .month => 43200

theorem containsSub_mid (ds pat sfx : List Char) :
    containsSub pat (ds ++ ' ' :: (pat ++ sfx)) = true := by
  have h : ds ++ ' ' :: (pat ++ sfx) = (ds ++ [' ']) ++ (pat ++ sfx) := by simp
  rw [h]
  exact containsSub_append_left _ (containsSub_here pat sfx)

theorem containsSub_digits_append_false {pat ds rest : List Char} {c : Char}
    (hds : ∀ x ∈ ds, isDig x = true) (hc : c ∈ pat) (hcd : isDig c = false)
    (hrest : c ∉ rest) : containsSub pat (ds ++ rest) = false := by
  refine containsSub_eq_false hc ?_
  intro h
  rcases List.mem_append.mp h with h | h
  · rw [hds c h] at hcd
    exact Bool.noConfusion hcd
  · exact hrest h

/-- Evaluation of `_parse_time_to_minutes` on a string that starts with a
digit run: the branch structure survives with the run's value plugged in. -/
theorem parse_time_eval (ds rest : List Char) (hne : ds ≠ [])
    (hds : ∀ c ∈ ds, isDig c = true)
    (hlrest : lowerStr rest = rest)
    (hrest0 : rest.takeWhile isDig = []) :
    parse_time_to_minutes (ds ++ rest) =
      (if containsSub "minute".toList (ds ++ rest) then digitsVal ds
       else if containsSub "hour".toList (ds ++ rest) then digitsVal ds * 60
       else if containsSub "day".toList (ds ++ rest) then digitsVal ds * 1440
       else if containsSub "week".toList (ds ++ rest) then digitsVal ds * 10080
       else if containsSub "month".toList (ds ++ rest) then digitsVal ds * 43200
       else 999999) := by
  have hsne : ds ++ rest ≠ [] := by
    cases ds with
    | nil => exact absurd rfl hne
    | cons c cs => simp
  have hlow : lowerStr (ds ++ rest) = ds ++ rest := by
    simp only [lowerStr, List.map_append]
    rw [show List.map Char.toLower ds = lowerStr ds from rfl,
      show List.map Char.toLower rest = lowerStr rest from rfl,
      lowerStr_of_digits hds, hlrest]
  have hfdr : firstDigitRun (ds ++ rest) = some (digitsVal ds) :=
    firstDigitRun_of_run hne hds hrest0
  simp only [parse_time_to_minutes, if_neg hsne, hlow, hfdr]

/-- `_parse_time_to_minutes` on a well-formed `<n> <unit>[s]` string. -/
theorem parse_time_unit (ds : List Char) (u : TimeUnit) (plural : Bool)
    (hne : ds ≠ []) (hds : ∀ c ∈ ds, isDig c = true) :
    parse_time_to_minutes (ds ++ ' ' :: (unitWord u ++ if plural then ['s'] else [])) =
      digitsVal ds * unitFactor u := by
  cases u <;> cases plural <;>
    simp only [unitWord, unitFactor, if_true, if_false, eq_self_iff_true,
      Bool.false_eq_true] <;>
    rw [parse_time_eval ds _ hne hds (by decide) (by decide)]
  case minute.true =>
    rw [containsSub_mid ds "minute".toList ['s']]
    simp [Nat.mul_one]
  case minute.false =>
    rw [containsSub_mid ds "minute".toList []]
    simp [Nat.mul_one]
  case hour.true =>
    rw [containsSub_digits_append_false hds
        (show 'i' ∈ "minute".toList by decide) (by decide) (by decide),
      containsSub_mid ds "hour".toList ['s']]
    simp
  case hour.false =>
    rw [containsSub_digits_append_false hds
        (show 'i' ∈ "minute".toList by decide) (by decide) (by decide),
      containsSub_mid ds "hour".toList []]
    simp
  case day.true =>
    rw [containsSub_digits_append_false hds
        (show 'i' ∈ "minute".toList by decide) (by decide) (by decide),
      containsSub_digits_append_false hds
        (show 'h' ∈ "hour".toList by decide) (by decide) (by decide),
      containsSub_mid ds "day".toList ['s']]
    simp
  case day.false =>
    rw [containsSub_digits_append_false hds
        (show 'i' ∈ "minute".toList by decide) (by decide) (by decide),
      containsSub_digits_append_false hds
        (show 'h' ∈ "hour".toList by decide) (by decide) (by decide),
      containsSub_mid ds "day".toList []]
    simp
  case week.true =>
    rw [containsSub_digits_append_false hds
        (show 'i' ∈ "minute".toList by decide) (by decide) (by decide),
      containsSub_digits_append_false hds
        (show 'h' ∈ "hour".toList by decide) (by decide) (by decide),
      containsSub_digits_append_false hds
        (show 'd' ∈ "day".toList by decide) (by decide) (by decide),
      containsSub_mid ds "week".toList ['s']]
    simp
  case week.false =>
    rw [containsSub_digits_append_false hds
        (show 'i' ∈ "minute".toList by decide) (by decide) (by decide),
      containsSub_digits_append_false hds
        (show 'h' ∈ "hour".toList by decide) (by decide) (by decide),
      containsSub_digits_append_false hds
        (show 'd' ∈ "day".toList by decide) (by decide) (by decide),
      containsSub_mid ds "week".toList []]
    simp
  case month.true =>
    rw [containsSub_digits_append_false hds
        (show 'i' ∈ "minute".toList by decide) (by decide) (by decide),
      containsSub_digits_append_false hds
        (show 'u' ∈ "hour".toList by decide) (by decide) (by decide),
      containsSub_digits_append_false hds
        (show 'd' ∈ "day".toList by decide) (by decide) (by decide),
      containsSub_digits_append_false hds
        (show 'w' ∈ "week".toList by decide) (by decide) (by decide),
      containsSub_mid ds "month".toList ['s']]
    simp
  case month.false =>
    rw [containsSub_digits_append_false hds
        (show 'i' ∈ "minute".toList by decide) (by decide) (by decide),
      containsSub_digits_append_false hds
        (show 'u' ∈ "hour".toList by decide) (by decide) (by decide),
      containsSub_digits_append_false hds
        (show 'd' ∈ "day".toList by decide) (by decide) (by decide),
      containsSub_digits_append_false hds
        (show 'w' ∈ "week".toList by decide) (by decide) (by decide),
      containsSub_mid ds "month".toList []]
    simp

theorem parse_time_noDigit {s : List Char} (h : ∀ c ∈ s, isDig c = false) :
    parse_time_to_minutes s = 999999 := by
  cases hs : s with
  | nil => rfl
  | cons c cs =>
    have hnone : firstDigitRun (lowerStr (c :: cs)) = none := by
      apply firstDigitRun_of_noDigit
      intro x hx
      rcases List.mem_map.mp hx with ⟨d, hd, rfl⟩
      rw [isDig_toLower]
      exact h d (hs ▸ hd)
    simp only [parse_time_to_minutes, hnone]
    simp

theorem parse_time_noUnit {s : List Char}
    (h : ∀ u : TimeUnit, containsSub (unitWord u) (lowerStr s) = false) :
    parse_time_to_minutes s = 999999 := by
  cases hs : s with
  | nil => rfl
  | cons c cs =>
    have h1 := h .minute
    have h2 := h .hour
    have h3 := h .day
    have h4 := h .week
    have h5 := h .month
    rw [hs] at h1 h2 h3 h4 h5
    simp only [unitWord] at h1 h2 h3 h4 h5
    simp only [parse_time_to_minutes, h1, h2, h3, h4, h5]
    cases firstDigitRun (lowerStr (c :: cs)) <;> simp

/-- C1: for a string of the form `<n> minute(s)` / `<n> hour(s)` /
`<n> day(s)` / `<n> week(s)` / `<n> month(s)`, `_parse_time_to_minutes`
returns `n * {1, 60, 1440, 10080, 43200}` respectively; the empty string,
a string without digits, and a string whose lowering contains none of the
five unit words all yield the sentinel 999999. -/
theorem C1_parse_time_to_minutes :
    (∀ (ds : List Char) (u : TimeUnit) (plural : Bool), ds ≠ [] →
      (∀ c ∈ ds, isDig c = true) →
      parse_time_to_minutes (ds ++ ' ' :: (unitWord u ++ if plural then ['s'] else [])) =
        digitsVal ds * unitFactor u) ∧
    parse_time_to_minutes [] = 999999 ∧
    (∀ s : List Char, (∀ c ∈ s, isDig c = false) → parse_time_to_minutes s = 999999) ∧
    (∀ s : List Char, (∀ u : TimeUnit, containsSub (unitWord u) (lowerStr s) = false) →
      parse_time_to_minutes s = 999999) :=
  ⟨fun ds u plural hne hds => parse_time_unit ds u plural hne hds, rfl,
    fun _ h => parse_time_noDigit h, fun _ h => parse_time_noUnit h⟩

/-- Witness for C1 at concrete inputs: `"37 minutes" ↦ 37`,
`"2 hour" ↦ 120`, and a digit-free string and a unit-free string both
hit the sentinel. -/
theorem C1_witness :
    parse_time_to_minutes "37 minutes".toList = 37 ∧
    parse_time_to_minutes "2 hour".toList = 120 ∧
    parse_time_to_minutes "abc".toList = 999999 ∧
    parse_time_to_minutes "42 parsecs".toList = 999999 :=
  ⟨C1_parse_time_to_minutes.1 "37".toList .minute true (by decide) (by decide),
    C1_parse_time_to_minutes.1 "2".toList .hour false (by decide) (by decide),
    C1_parse_time_to_minutes.2.2.1 "abc".toList (by decide),
    C1_parse_time_to_minutes.2.2.2 "42 parsecs".toList (by intro u; cases u <;> decide)⟩

/-! ### C4: `_parse_applicant_count` -/

theorem firstDigitRun_append_noDigit {a b : List Char}
    (h : ∀ c ∈ a, isDig c = false) :
    firstDigitRun (a ++ b) = firstDigitRun b := by
  induction a with
  | nil => rfl
  | cons c cs ih =>
    simp only [List.cons_append, firstDigitRun, h c (List.mem_cons_self _ _)]
    simp only [Bool.false_eq_true, if_false]
    exact ih (fun x hx => h x (List.mem_cons_of_mem _ hx))

theorem takeWhile_isDig_lowerStr {s : List Char} (h : s.takeWhile isDig = []) :
    (lowerStr s).takeWhile isDig = [] := by
  cases s with
  | nil => rfl
  | cons c cs =>
    simp only [List.takeWhile_cons] at h ⊢
    rcases hd : isDig c with _ | _
    · simp only [lowerStr, List.map_cons, List.takeWhile_cons, isDig_toLower, hd,
        Bool.false_eq_true, if_false]
    · rw [hd] at h
      simp at h

theorem noDigit_lowerStr {s : List Char} (h : ∀ c ∈ s, isDig c = false) :
    ∀ c ∈ lowerStr s, isDig c = false := by
  intro c hc
  rcases List.mem_map.mp hc with ⟨d, hd, rfl⟩
  rw [isDig_toLower]
  exact h d hd

/-- The phrase branch of the primary `_parse_applicant_count` is
behaviourally invisible: the function always returns the value of the
first digit run, 0 when there is none. -/
theorem parse_applicant_count_eq (s : List Char) :
    parse_applicant_count s = (firstDigitRun (lowerStr s)).getD 0 := by
  by_cases hs : s = []
  · subst hs
    rfl
  · simp only [parse_applicant_count, if_neg hs]
    by_cases hc : containsSub amongFirst (lowerStr s) = true
    · rw [if_pos hc]
      cases firstDigitRun (lowerStr s) <;> rfl
    · rw [if_neg hc]
      cases firstDigitRun (lowerStr s) <;> rfl

/-- On a digit-free head, a digit run, and a tail that does not start with
a digit, the primary `_parse_applicant_count` returns the run's value. -/
theorem parse_applicant_count_run (pre ds sfx : List Char) (hne : ds ≠ [])
    (hpre : ∀ c ∈ pre, isDig c = false) (hds : ∀ c ∈ ds, isDig c = true)
    (hsfx : sfx.takeWhile isDig = []) :
    parse_applicant_count (pre ++ ds ++ sfx) = digitsVal ds := by
  rw [parse_applicant_count_eq]
  have h1 : lowerStr (pre ++ ds ++ sfx) = lowerStr pre ++ (ds ++ lowerStr sfx) := by
    simp only [lowerStr, List.map_append, List.append_assoc]
    rw [show List.map Char.toLower ds = lowerStr ds from rfl, lowerStr_of_digits hds]
  rw [h1, firstDigitRun_append_noDigit (noDigit_lowerStr hpre),
    firstDigitRun_of_run hne hds (takeWhile_isDig_lowerStr hsfx)]
  rfl

/-- Characterisation of the `AttributeError` escape of the Job Bot
variant: it raises exactly when the string is nonempty, contains the
phrase after lowering, and holds no digit. -/
theorem parse_applicant_count_jb_none (s : List Char) :
    parse_applicant_count_jb s = none ↔
      (s ≠ [] ∧ containsSub amongFirst (lowerStr s) = true ∧
        firstDigitRun (lowerStr s) = none) := by
  by_cases hs : s = []
  · subst hs
    constructor
    · intro h
      exact absurd h (by decide)
    · rintro ⟨h, -⟩
      exact absurd rfl h
  · simp only [parse_applicant_count_jb, if_neg hs]
    by_cases hc : containsSub amongFirst (lowerStr s) = true
    · rw [if_pos hc]
      cases h : firstDigitRun (lowerStr s) <;> simp [hs, hc, h]
    · rw [if_neg hc]
      simp [hs, hc]

/-- Whenever the Job Bot variant returns normally it agrees with the
primary variant. -/
theorem parse_applicant_count_jb_some (s : List Char) (n : Nat)
    (h : parse_applicant_count_jb s = some n) : n = parse_applicant_count s := by
  rw [parse_applicant_count_eq]
  by_cases hs : s = []
  · subst hs
    have h0 : parse_applicant_count_jb [] = some 0 := rfl
    rw [h0] at h
    cases h
    rfl
  · simp only [parse_applicant_count_jb, if_neg hs] at h
    by_cases hc : containsSub amongFirst (lowerStr s) = true
    · rw [if_pos hc] at h
      cases hf : firstDigitRun (lowerStr s) <;> rw [hf] at h
      · cases h
      · cases h
        rfl
    · rw [if_neg hc] at h
      cases h
      rfl

/-- C4 counterexample: the claim says `_parse_applicant_count` "returns 0
and never raises" on non-numeric input, but the Job Bot variant raises
`AttributeError` (modelled as `none`) on the digit-free string
`"be among the first"`. -/
theorem C4_counterexample :
    parse_applicant_count_jb "be among the first".toList = none := by decide

/-- C4 (amended): both variants return the value of the first digit run
of the string (0 when there is none) — so a string whose digit-free
prefix is followed by `N`, e.g. `"Be among the first N applicants"`,
yields `N` — except that the Job Bot variant raises `AttributeError`
exactly when the string is nonempty, contains `'be among the first'`
after lowering, and holds no digit; the primary variant never raises. -/
theorem C4_parse_applicant_count :
    (∀ s : List Char, parse_applicant_count s = (firstDigitRun (lowerStr s)).getD 0) ∧
    (∀ pre ds sfx : List Char, ds ≠ [] → (∀ c ∈ pre, isDig c = false) →
      (∀ c ∈ ds, isDig c = true) → sfx.takeWhile isDig = [] →
      parse_applicant_count (pre ++ ds ++ sfx) = digitsVal ds) ∧
    (∀ s : List Char, parse_applicant_count_jb s = none ↔
      (s ≠ [] ∧ containsSub amongFirst (lowerStr s) = true ∧
        firstDigitRun (lowerStr s) = none)) ∧
    (∀ (s : List Char) (n : Nat), parse_applicant_count_jb s = some n →
      n = parse_applicant_count s) :=
  ⟨parse_applicant_count_eq, parse_applicant_count_run,
    parse_applicant_count_jb_none, parse_applicant_count_jb_some⟩

/-- Witness for C4 at concrete inputs. -/
theorem C4_witness :
    parse_applicant_count ("Be among the first ".toList ++ "25".toList ++ " applicants".toList) = 25 ∧
    (7 : Nat) = parse_applicant_count "7 applicants".toList :=
  ⟨C4_parse_applicant_count.2.1 "Be among the first ".toList "25".toList
      " applicants".toList (by decide) (by decide) (by decide) (by decide),
    C4_parse_applicant_count.2.2.2 "7 applicants".toList 7 (by decide)⟩

/-! ### The job record and the final sort (C2) -/

/-- The flat string-keyed job record built by `_parse_job_list`, with the
dict's field set; every field defaults to the empty string, as the parser
itself fills absent values with `''`. -/
structure Job where
  title : String := ""
  location : String := ""
  postedTime : String := ""
  publishedAt : String := ""
  jobUrl : String := ""
  companyName : String := ""
  companyUrl : String := ""
  companyId : String := ""
  applicationsCount : String := ""
  description : String := ""
  contractType : String := ""
  experienceLevel : String := ""
  workType : String := ""
  sector : String := ""
  salary : String := ""
  posterFullName : String := ""
  posterProfileUrl : String := ""
  applyUrl : String := ""
  applyType : String := ""
  benefits : String := ""
deriving DecidableEq

/-- The sort key attached as `_time_minutes` / `_applicant_count` before
the final `detailed_jobs.sort(key=lambda x: (...))`. -/
def sortKey (j : Job) : Nat × Nat :=
  (parse_time_to_minutes j.postedTime.toList,
    parse_applicant_count j.applicationsCount.toList)

/-- Python's tuple comparison on the two-component key. -/
def keyLe (a b : Job) : Bool :=
  decide ((sortKey a).1 < (sortKey b).1 ∨
    ((sortKey a).1 = (sortKey b).1 ∧ (sortKey a).2 ≤ (sortKey b).2))

/-- `list.sort(key=...)`: Python's sort is a stable ascending sort, which
is exactly `List.mergeSort`. -/
def sortJobs (l : List Job) : List Job := l.mergeSort keyLe

theorem keyLe_trans : ∀ a b c : Job, keyLe a b = true → keyLe b c = true →
    keyLe a c = true := by
  intro a b c hab hbc
  simp only [keyLe, decide_eq_true_eq] at *
  omega

theorem keyLe_total : ∀ a b : Job, keyLe a b || keyLe b a := by
  intro a b
  simp only [keyLe, Bool.or_eq_true, decide_eq_true_eq]
  omega

theorem sortJobs_sorted (l : List Job) :
    (sortJobs l).Pairwise (fun a b => keyLe a b = true) :=
  List.sorted_mergeSort keyLe_trans keyLe_total l

theorem sortJobs_perm (l : List Job) : sortJobs l ~ l :=
  List.mergeSort_perm l keyLe

/-- Stability of the final sort: the records carrying any fixed key value
appear in the output in their input order. -/
theorem sortJobs_stable (l : List Job) (k : Nat × Nat) :
    (sortJobs l).filter (fun j => sortKey j == k) =
      l.filter (fun j => sortKey j == k) := by
  have hsub : l.filter (fun j => sortKey j == k) <+ l := List.filter_sublist l
  have hpw : (l.filter (fun j => sortKey j == k)).Pairwise
      (fun a b => keyLe a b = true) := by
    apply List.pairwise_of_forall_mem_list
    intro a ha b hb
    have hak : sortKey a = k := by
      simpa using (List.mem_filter.mp ha).2
    have hbk : sortKey b = k := by
      simpa using (List.mem_filter.mp hb).2
    simp [keyLe, hak, hbk]
  have h1 : l.filter (fun j => sortKey j == k) <+ sortJobs l :=
    List.sublist_mergeSort keyLe_trans keyLe_total hpw hsub
  have h2 : l.filter (fun j => sortKey j == k) <+
      (sortJobs l).filter (fun j => sortKey j == k) := by
    have h3 := h1.filter (fun j => sortKey j == k)
    rwa [List.filter_eq_self.mpr (fun a ha => (List.mem_filter.mp ha).2)] at h3
  have hlen : ((sortJobs l).filter (fun j => sortKey j == k)).length =
      (l.filter (fun j => sortKey j == k)).length :=
    ((sortJobs_perm l).filter _).length_eq
  exact (h2.eq_of_length hlen.symm).symm

/-- Any stable sorted permutation of a two-element list whose first
element does not compare `≤` to the second must swap them. -/
theorem sortJobs_pair {a b : Job} (h : keyLe a b = false) :
    sortJobs [a, b] = [b, a] := by
  have hp : sortJobs [a, b] ~ [a, b] := sortJobs_perm _
  have hs : (sortJobs [a, b]).Pairwise (fun u v => keyLe u v = true) :=
    sortJobs_sorted _
  have hl : (sortJobs [a, b]).length = 2 := hp.length_eq
  rcases hme : sortJobs [a, b] with _ | ⟨x, _ | ⟨y, _ | ⟨z, t⟩⟩⟩
  · rw [hme] at hl
    simp at hl
  · rw [hme] at hl
    simp at hl
  · rw [hme] at hp hs
    have hx : x ∈ [a, b] := hp.subset (List.mem_cons_self _ _)
    rcases List.mem_cons.mp hx with rfl | hx
    · have hy : y = b := by simpa using hp.cons_inv
      subst hy
      have hxy : keyLe x y = true :=
        List.rel_of_pairwise_cons hs (List.mem_cons_self _ _)
      rw [h] at hxy
      exact Bool.noConfusion hxy
    · have hxb : x = b := by simpa using hx
      subst hxb
      have hy : y = a := by
        have hswap : ([x, y] : List Job) ~ [x, a] := hp.trans (List.Perm.swap x a [])
        simpa using hswap.cons_inv
      subst hy
      rfl
  · rw [hme] at hl
    simp only [List.length_cons, List.length_nil] at hl
    omega

/-- A record whose posted time parses to `24 * 43200 = 1036800` minutes,
strictly above the 999999 sentinel. -/
def jobOldParseable : Job :=
  { postedTime := "24 months", applicationsCount := "1 applicant" }

/-- A record whose posted time has no digits, so it gets the sentinel key
999999. -/
def jobUnparseable : Job :=
  { postedTime := "recently", applicationsCount := "5 applicants" }

/-- C2 counterexample: the claim says non-parseable time strings sort
last via the 999999 sentinel, but a parseable `"24 months"` normalizes to
1036800 > 999999, so the unparseable record sorts FIRST here, not last. -/
theorem C2_counterexample :
    sortJobs [jobOldParseable, jobUnparseable] =
      [jobUnparseable, jobOldParseable] ∧
    parse_time_to_minutes jobUnparseable.postedTime.toList = 999999 ∧
    parse_time_to_minutes jobOldParseable.postedTime.toList = 1036800 :=
  ⟨sortJobs_pair (by decide), by decide, by decide⟩

/-- Spec example record with key (60, 1). -/
def exJob60 : Job := { postedTime := "1 hour", applicationsCount := "1 applicant" }

/-- Spec example record with key (10, 5). -/
def exJob10a : Job := { postedTime := "10 minutes", applicationsCount := "5 applicants" }

/-- Spec example record with key (10, 2). -/
def exJob10b : Job := { postedTime := "10 minutes", applicationsCount := "2 applicants" }

theorem sortJobs_example :
    sortJobs [exJob60, exJob10a, exJob10b] = [exJob10b, exJob10a, exJob60] := by
  have h1 : keyLe exJob60 exJob10a = false := by decide
  have h2 : keyLe exJob10a exJob10b = false := by decide
  simp [sortJobs, List.mergeSort, List.merge, List.splitInTwo, h1, h2]

/-- C2 (amended): the final sort is stable and ascending on the key
(posted-time minutes, applicant count): the output is sorted under the
Python tuple order, is a permutation of the input, and records with equal
keys keep their input order; a record whose lowered posted time contains
no unit word gets minutes-component 999999 and never precedes a record
with minutes below 999999 — but parseable times of 999999 minutes or more
(e.g. 24 months and beyond) sort after unparseable ones, so "non-parseable
sorts last" holds only against records below the sentinel.  The spec's
concrete [(60,1),(10,5),(10,2)] example holds. -/
theorem C2_sortJobs :
    (∀ l : List Job, (sortJobs l).Pairwise (fun a b => keyLe a b = true)) ∧
    (∀ l : List Job, sortJobs l ~ l) ∧
    (∀ (l : List Job) (k : Nat × Nat),
      (sortJobs l).filter (fun j => sortKey j == k) =
        l.filter (fun j => sortKey j == k)) ∧
    sortJobs [exJob60, exJob10a, exJob10b] = [exJob10b, exJob10a, exJob60] ∧
    (∀ j : Job,
      (∀ u : TimeUnit, containsSub (unitWord u) (lowerStr j.postedTime.toList) = false) →
      (sortKey j).1 = 999999) ∧
    (∀ a b : Job, (sortKey a).1 < 999999 → (sortKey b).1 = 999999 →
      keyLe b a = false) := by
  refine ⟨sortJobs_sorted, sortJobs_perm, sortJobs_stable, sortJobs_example,
    ?_, ?_⟩
  · intro j hj
    exact parse_time_noUnit hj
  · intro a b ha hb
    simp only [keyLe, decide_eq_false_iff_not]
    omega

/-- Witness for C2 at concrete records: an unparseable posted time gets
the sentinel key, and such a record never precedes a five-minute-old one. -/
theorem C2_witness :
    (sortKey ({ postedTime := "recently", applicationsCount := "3 applicants" } : Job)).1 =
      999999 ∧
    keyLe jobUnparseable ({ postedTime := "5 minutes" } : Job) = false :=
  ⟨C2_sortJobs.2.2.2.2.1 _ (by intro u; cases u <;> decide),
    C2_sortJobs.2.2.2.2.2 ({ postedTime := "5 minutes" } : Job) jobUnparseable
      (by decide) (by decide)⟩

/-! ### Deduplication by jobUrl (C3, C10) -/

/-- The collision policy of the `unique_jobs` loop: keep the incumbent
`e` unless the newcomer `j` has a strictly longer description. -/
def keep (e j : Job) : Job :=
  if j.description.length > e.description.length then j else e

/-- One iteration of the `unique_jobs` dict loop in `__main__`.  The dict
is modelled as its value list in key-insertion order: Python dicts
preserve insertion order, `dict.values()` follows it, and overwriting a
key keeps its position. -/
def updateAssoc : List Job → Job → List Job
  | [], j => [j]
  | e :: rest, j =>
    if e.jobUrl = j.jobUrl then keep e j :: rest
    else e :: updateAssoc rest j

/-- The whole dedup loop over `all_scraped_jobs`. -/
def dedupJobs (jobs : List Job) : List Job := jobs.foldl updateAssoc []

/-- The records of `l` carrying jobUrl `u`, in order. -/
def urlFilter (u : String) (l : List Job) : List Job :=
  l.filter (fun j => j.jobUrl == u)

/-- Folding the collision policy over successive same-url records. -/
def bestStep (acc : Option Job) (j : Job) : Option Job :=
  match acc with
  | none => some j
  | some e => some (keep e j)

/-- The collision policy folded over a whole list. -/
def bestOpt (init : Option Job) (l : List Job) : Option Job := l.foldl bestStep init

/-- An `Option` as a zero/one-element list. -/
def optList : Option Job → List Job
  | none => []
  | some j => [j]

theorem keep_jobUrl {e j : Job} (h : e.jobUrl = j.jobUrl) :
    (keep e j).jobUrl = j.jobUrl := by
  unfold keep
  split
  · rfl
  · exact h

theorem urlFilter_updateAssoc_ne {u : String} {j : Job} (h : ¬ j.jobUrl = u) :
    ∀ acc : List Job, urlFilter u (updateAssoc acc j) = urlFilter u acc := by
  intro acc
  induction acc with
  | nil =>
    simp only [updateAssoc, urlFilter]
    rw [List.filter_cons_of_neg (by simpa using h)]
  | cons e rest ih =>
    by_cases he : e.jobUrl = j.jobUrl
    · simp only [updateAssoc, if_pos he, urlFilter]
      rw [List.filter_cons_of_neg (by simp [keep_jobUrl he, h]),
        List.filter_cons_of_neg (by simp [he, h])]
    · simp only [updateAssoc, if_neg he, urlFilter]
      by_cases hee : e.jobUrl = u
      · rw [List.filter_cons_of_pos (by simpa using hee),
          List.filter_cons_of_pos (by simpa using hee)]
        simpa [urlFilter] using ih
      · rw [List.filter_cons_of_neg (by simpa using hee),
          List.filter_cons_of_neg (by simpa using hee)]
        simpa [urlFilter] using ih

theorem urlFilter_updateAssoc_eq {u : String} {j : Job} (hj : j.jobUrl = u) :
    ∀ acc : List Job, (urlFilter u acc).length ≤ 1 →
      urlFilter u (updateAssoc acc j) =
        optList (bestStep (urlFilter u acc).head? j) := by
  intro acc
  induction acc with
  | nil =>
    intro _
    simp only [updateAssoc, urlFilter, List.filter_nil]
    rw [List.filter_cons_of_pos (by simpa using hj)]
    rfl
  | cons e rest ih =>
    intro hlen
    by_cases he : e.jobUrl = j.jobUrl
    · have hee : e.jobUrl = u := he.trans hj
      have hrest : urlFilter u rest = [] := by
        have h1 : urlFilter u (e :: rest) = e :: urlFilter u rest := by
          simp only [urlFilter]
          rw [List.filter_cons_of_pos (by simpa using hee)]
        rw [h1] at hlen
        simp only [List.length_cons] at hlen
        exact List.eq_nil_of_length_eq_zero (by omega)
      simp only [updateAssoc, if_pos he, urlFilter]
      rw [List.filter_cons_of_pos (by simp [keep_jobUrl he, hj]),
        List.filter_cons_of_pos (by simpa using hee)]
      rw [show List.filter (fun x => x.jobUrl == u) rest = urlFilter u rest from rfl,
        hrest]
      rfl
    · have hee : ¬ e.jobUrl = u := fun hcon => he (hcon.trans hj.symm)
      have h1 : urlFilter u (e :: rest) = urlFilter u rest := by
        simp only [urlFilter]
        rw [List.filter_cons_of_neg (by simpa using hee)]
      simp only [updateAssoc, if_neg he, urlFilter]
      rw [List.filter_cons_of_neg (by simpa using hee),
        List.filter_cons_of_neg (by simpa using hee)]
      rw [h1] at hlen
      exact ih hlen

theorem urlFilter_updateAssoc_len {u : String} {j : Job} (acc : List Job)
    (hlen : (urlFilter u acc).length ≤ 1) :
    (urlFilter u (updateAssoc acc j)).length ≤ 1 := by
  by_cases hj : j.jobUrl = u
  · rw [urlFilter_updateAssoc_eq hj acc hlen]
    cases (urlFilter u acc).head? <;> simp [optList, bestStep]
  · rw [urlFilter_updateAssoc_ne hj acc]
    exact hlen

theorem foldl_updateAssoc_urlFilter (u : String) :
    ∀ l acc : List Job, (urlFilter u acc).length ≤ 1 →
      urlFilter u (l.foldl updateAssoc acc) =
        optList (bestOpt (urlFilter u acc).head? (urlFilter u l)) := by
  intro l
  induction l with
  | nil =>
    intro acc hlen
    simp only [List.foldl_nil, urlFilter, List.filter_nil, bestOpt, List.foldl_nil]
    rcases hacc : List.filter (fun j => j.jobUrl == u) acc with _ | ⟨e, _ | ⟨f, t⟩⟩
    · rw [hacc]
      rfl
    · rw [hacc]
      rfl
    · rw [show List.filter (fun j => j.jobUrl == u) acc = urlFilter u acc from rfl] at hacc
      rw [hacc] at hlen
      simp at hlen
  | cons j rest ih =>
    intro acc hlen
    simp only [List.foldl_cons]
    rw [ih (updateAssoc acc j) (urlFilter_updateAssoc_len acc hlen)]
    by_cases hj : j.jobUrl = u
    · have h1 : urlFilter u (j :: rest) = j :: urlFilter u rest := by
        simp only [urlFilter]
        rw [List.filter_cons_of_pos (by simpa using hj)]
      rw [h1, urlFilter_updateAssoc_eq hj acc hlen]
      have h2 : ∀ o : Option Job,
          (optList (bestStep o j)).head? = bestStep o j := by
        intro o
        cases o <;> rfl
      rw [show bestOpt (urlFilter u acc).head? (j :: urlFilter u rest) =
          bestOpt (bestStep (urlFilter u acc).head? j) (urlFilter u rest) from rfl,
        h2]
    · have h1 : urlFilter u (j :: rest) = urlFilter u rest := by
        simp only [urlFilter]
        rw [List.filter_cons_of_neg (by simpa using hj)]
      rw [h1, urlFilter_updateAssoc_ne hj acc]

/-- Characterisation of the dedup loop: for every url, the surviving
record is the left fold of the collision policy over the input records
carrying that url. -/
theorem dedupJobs_urlFilter (l : List Job) (u : String) :
    urlFilter u (dedupJobs l) = optList (bestOpt none (urlFilter u l)) := by
  have h := foldl_updateAssoc_urlFilter u l [] (by simp [urlFilter])
  simpa [urlFilter, dedupJobs] using h

/-- C3: deduplication over the accumulated records is keyed by jobUrl: a
record whose url is unique in the input survives into the result; when
exactly two records share a url and one description is strictly longer,
that url keeps exactly one record — the longer-description one,
whichever side of the collision it arrived on. -/
theorem C3_dedup_by_url :
    (∀ (l : List Job) (j : Job), urlFilter j.jobUrl l = [j] →
      urlFilter j.jobUrl (dedupJobs l) = [j] ∧ j ∈ dedupJobs l) ∧
    (∀ (l : List Job) (u : String) (r1 r2 : Job), urlFilter u l = [r1, r2] →
      r2.description.length > r1.description.length →
      urlFilter u (dedupJobs l) = [r2]) ∧
    (∀ (l : List Job) (u : String) (r1 r2 : Job), urlFilter u l = [r1, r2] →
      r1.description.length > r2.description.length →
      urlFilter u (dedupJobs l) = [r1]) := by
  refine ⟨?_, ?_, ?_⟩
  · intro l j h
    have hd := dedupJobs_urlFilter l j.jobUrl
    rw [h] at hd
    have hd' : urlFilter j.jobUrl (dedupJobs l) = [j] := by
      simpa [bestOpt, bestStep, optList] using hd
    refine ⟨hd', ?_⟩
    have hm : j ∈ urlFilter j.jobUrl (dedupJobs l) := by
      rw [hd']
      exact List.mem_cons_self _ _
    exact List.mem_of_mem_filter hm
  · intro l u r1 r2 h hlonger
    have hd := dedupJobs_urlFilter l u
    rw [h] at hd
    rw [hd]
    simp [bestOpt, bestStep, optList, keep, hlonger]
  · intro l u r1 r2 h hlonger
    have hd := dedupJobs_urlFilter l u
    rw [h] at hd
    rw [hd]
    have hn : ¬ (r2.description.length > r1.description.length) := by omega
    simp [bestOpt, bestStep, optList, keep, hn]

/-- A colliding pair for the C3 witness: same url, second description
strictly longer, a distinct-url record in between. -/
def dupShort : Job :=
  { jobUrl := "https://www.linkedin.com/jobs/view/analyst-4000000001?x",
    description := "short" }

/-- The longer-description collider of the C3 witness. -/
def dupLong : Job :=
  { jobUrl := "https://www.linkedin.com/jobs/view/analyst-4000000001?x",
    description := "a longer description" }

/-- A record with a url of its own for the C3 witness. -/
def soloJob : Job :=
  { jobUrl := "https://www.linkedin.com/jobs/view/analyst-4000000002?y",
    description := "solo" }

/-- Witness for C3 on a concrete three-record input. -/
theorem C3_witness :
    urlFilter dupShort.jobUrl (dedupJobs [dupShort, soloJob, dupLong]) = [dupLong] ∧
    urlFilter soloJob.jobUrl (dedupJobs [dupShort, soloJob, dupLong]) = [soloJob] ∧
    soloJob ∈ dedupJobs [dupShort, soloJob, dupLong] :=
  ⟨C3_dedup_by_url.2.1 [dupShort, soloJob, dupLong] dupShort.jobUrl dupShort dupLong
      (by decide) (by decide),
    (C3_dedup_by_url.1 [dupShort, soloJob, dupLong] soloJob (by decide)).1,
    (C3_dedup_by_url.1 [dupShort, soloJob, dupLong] soloJob (by decide)).2⟩

/-- C10: on a two-record url collision where the later record's
description is not strictly longer (equal lengths included), the
first-encountered record is retained and the later one discarded. -/
theorem C10_dedup_tie_keeps_first :
    ∀ (l : List Job) (u : String) (r1 r2 : Job), urlFilter u l = [r1, r2] →
      ¬ (r2.description.length > r1.description.length) →
      urlFilter u (dedupJobs l) = [r1] := by
  intro l u r1 r2 h hlen
  have hd := dedupJobs_urlFilter l u
  rw [h] at hd
  rw [hd]
  simp [bestOpt, bestStep, optList, keep, hlen]

/-- First-arriving record of the C10 tie witness. -/
def tieFirst : Job :=
  { jobUrl := "https://www.linkedin.com/jobs/view/manager-4000000007?a",
    title := "first arrival", description := "aaa" }

/-- Later record of the C10 tie witness, equal description length. -/
def tieSecond : Job :=
  { jobUrl := "https://www.linkedin.com/jobs/view/manager-4000000007?a",
    title := "second arrival", description := "bbb" }

/-- Witness for C10: equal-length collision keeps the first record. -/
theorem C10_witness :
    urlFilter "https://www.linkedin.com/jobs/view/manager-4000000007?a"
      (dedupJobs [tieFirst, tieSecond]) = [tieFirst] :=
  C10_dedup_tie_keeps_first [tieFirst, tieSecond]
    "https://www.linkedin.com/jobs/view/manager-4000000007?a" tieFirst tieSecond
    (by decide) (by decide)

/-! ### C9: ProxyRotator -/

/-- `ProxyRotator` state: the configured endpoint list, the round-robin
index, and the set of failed endpoints (a Python `set`, modelled as a
list queried by membership). -/
structure ProxyRotator where
  proxies : List String
  currentIndex : Nat := 0
  failedProxies : List String := []

/-- `ProxyRotator.get_next_proxy` (identical in both variants).  The
returned pair `(http, https)` models the dict
`{'http': proxy, 'https': proxy}`. -/
def get_next_proxy (r : ProxyRotator) : Option (String × String) × ProxyRotator :=
  if r.proxies.isEmpty then (none, r)
  else
    let avail0 := r.proxies.filter (fun p => !(r.failedProxies.contains p))
    let r1 := if avail0.isEmpty then { r with failedProxies := [] } else r
    let available := if avail0.isEmpty then r.proxies else avail0
    match available with
    | [] => (none, r1)
    | a :: rest =>
      let proxy := (a :: rest).get
        ⟨r1.currentIndex % (a :: rest).length, Nat.mod_lt _ (Nat.succ_pos _)⟩
      (some (proxy, proxy), { r1 with currentIndex := r1.currentIndex + 1 })

/-- `ProxyRotator.mark_failed`: adds the endpoint to the failed set. -/
def mark_failed (r : ProxyRotator) (p : String) : ProxyRotator :=
  { r with failedProxies := p :: r.failedProxies }

/-- C9: with a nonempty configured proxy list, `get_next_proxy` never
returns `None` — when every proxy has been marked failed the failed set
is cleared and a proxy is still produced — and the returned mapping
assigns one and the same endpoint string to the `'http'` and `'https'`
keys. -/
theorem C9_get_next_proxy :
    ∀ r : ProxyRotator, r.proxies ≠ [] →
      ∃ p : String, (get_next_proxy r).1 = some (p, p) := by
  rintro ⟨ps, idx, failed⟩ hne
  cases ps with
  | nil => exact absurd rfl hne
  | cons a rest =>
    by_cases h0 : ((a :: rest).filter (fun p => !(failed.contains p))).isEmpty
    · simp only [get_next_proxy, List.isEmpty_cons, Bool.false_eq_true, if_false,
        h0, if_true]
      exact ⟨_, rfl⟩
    · have h0f : ((a :: rest).filter (fun p => !(failed.contains p))).isEmpty = false :=
        Bool.eq_false_iff.mpr h0
      cases hf : (a :: rest).filter (fun p => !(failed.contains p)) with
      | nil =>
        rw [hf] at h0f
        simp at h0f
      | cons b bs =>
        simp only [get_next_proxy, List.isEmpty_cons, Bool.false_eq_true, if_false,
          h0f, hf]
        exact ⟨_, rfl⟩

/-- C9 witness state: two proxies, both already marked failed. -/
def allFailedRotator : ProxyRotator :=
  { proxies := ["http://proxy1:8080", "http://proxy2:8080"],
    currentIndex := 0,
    failedProxies := ["http://proxy1:8080", "http://proxy2:8080"] }

/-- Witness for C9: with every proxy failed, the failed set is cleared
and a proxy is still produced. -/
theorem C9_witness :
    ∃ p : String, (get_next_proxy allFailedRotator).1 = some (p, p) :=
  C9_get_next_proxy allFailedRotator (by decide)

/-! ### C7: `_make_request` -/

/-- What the retry loop observes of one `requests.get` response. -/
structure HttpResponse where
  statusCode : Nat
  url : String
  body : String := ""
deriving DecidableEq

/-- Outcome of one attempt: either `requests.get` returned a response, or
it raised one of the exceptions the loop catches (`ProxyError`,
`Timeout`, `ConnectionError`, `RequestException`, and — in the primary
variant — any `Exception`). -/
inductive AttemptResult where
  | success (r : HttpResponse)
  | failure
deriving DecidableEq

/-- `"authwall" in response.url or "checkpoint" in response.url`. -/
def hitsAuthwall (r : HttpResponse) : Bool :=
  containsSub "authwall".toList r.url.toList ||
    containsSub "checkpoint".toList r.url.toList

/-- One body of the primary `_make_request` loop: `some` is an early
`return response`, `none` means the loop continues to the next attempt
(429/403/999 statuses, auth wall, unexpected status, or an exception). -/
def attemptStep : AttemptResult → Option HttpResponse
  | .failure => none
  | .success r =>
    if r.statusCode = 429 then none
    else if r.statusCode = 403 then none
    else if r.statusCode = 999 then none
    else if hitsAuthwall r then none
    else if r.statusCode = 200 then some r
    else none

/-- One body of the Job Bot `_make_request` loop: 429 sleeps and
continues, `raise_for_status` turns 4xx/5xx into a caught
`RequestException`, anything else is returned. -/
def attemptStepJB : AttemptResult → Option HttpResponse
  | .failure => none
  | .success r =>
    if r.statusCode = 429 then none
    else if 400 ≤ r.statusCode ∧ r.statusCode < 600 then none
    else some r

/-- The `for attempt in range(max_retries)` loop, fuelled by the retry
bound; attempt `i` observes `outcomes i`. -/
def requestLoop (step : AttemptResult → Option HttpResponse)
    (outcomes : Nat → AttemptResult) : Nat → Nat → Option HttpResponse
  | _, 0 => none
  | i, fuel + 1 =>
    match step (outcomes i) with
    | some r => some r
    | none => requestLoop step outcomes (i + 1) fuel

/-- `_make_request` of the primary scraper: `max_retries = 5`. -/
def make_request (outcomes : Nat → AttemptResult) : Option HttpResponse :=
  requestLoop attemptStep outcomes 0 5

/-- `_make_request` of the Job Bot variant: `max_retries = 3`. -/
def make_request_jb (outcomes : Nat → AttemptResult) : Option HttpResponse :=
  requestLoop attemptStepJB outcomes 0 3

theorem requestLoop_some (step : AttemptResult → Option HttpResponse)
    (outcomes : Nat → AttemptResult) :
    ∀ (fuel i : Nat) (r : HttpResponse), requestLoop step outcomes i fuel = some r →
      ∃ k, k < fuel ∧ step (outcomes (i + k)) = some r := by
  intro fuel
  induction fuel with
  | zero =>
    intro i r h
    exact absurd h (by simp [requestLoop])
  | succ n ih =>
    intro i r h
    rw [requestLoop] at h
    cases hs : step (outcomes i) with
    | some r' =>
      rw [hs] at h
      cases h
      exact ⟨0, Nat.succ_pos _, by simpa using hs⟩
    | none =>
      rw [hs] at h
      obtain ⟨k, hk, hstep⟩ := ih (i + 1) r h
      refine ⟨k + 1, by omega, ?_⟩
      rw [show i + (k + 1) = i + 1 + k by omega]
      exact hstep

theorem requestLoop_congr (step : AttemptResult → Option HttpResponse)
    (o1 o2 : Nat → AttemptResult) :
    ∀ (fuel i : Nat), (∀ k, k < fuel → o1 (i + k) = o2 (i + k)) →
      requestLoop step o1 i fuel = requestLoop step o2 i fuel := by
  intro fuel
  induction fuel with
  | zero =>
    intro i _
    rfl
  | succ n ih =>
    intro i h
    have h0 : o1 i = o2 i := by simpa using h 0 (Nat.succ_pos _)
    rw [requestLoop, requestLoop, h0]
    cases step (o2 i) with
    | some r => rfl
    | none =>
      exact ih (i + 1) (fun k hk => by
        have hk1 := h (k + 1) (by omega)
        rwa [show i + (k + 1) = i + 1 + k by omega] at hk1)

theorem attemptStep_some {a : AttemptResult} {r : HttpResponse}
    (h : attemptStep a = some r) :
    a = .success r ∧ r.statusCode = 200 ∧ hitsAuthwall r = false := by
  cases a with
  | failure => exact absurd h (by simp [attemptStep])
  | success r' =>
    simp only [attemptStep] at h
    split_ifs at h with h1 h2 h3 h4 h5 <;> cases h
    exact ⟨rfl, h5, by simpa using h4⟩

theorem attemptStepJB_some {a : AttemptResult} {r : HttpResponse}
    (h : attemptStepJB a = some r) :
    a = .success r ∧ r.statusCode ≠ 429 ∧
      ¬(400 ≤ r.statusCode ∧ r.statusCode < 600) := by
  cases a with
  | failure => exact absurd h (by simp [attemptStepJB])
  | success r' =>
    simp only [attemptStepJB] at h
    split_ifs at h with h1 h2 <;> cases h
    exact ⟨rfl, h1, h2⟩

/-- C7: `_make_request` performs at most `max_retries` attempts (5 in the
primary variant, 3 in the Job Bot variant) and always terminates: the
result depends only on the outcomes of those attempts, and it is either a
response one of the attempts returned — a 200 response off the auth wall
in the primary variant; a non-429, non-4xx/5xx response in the Job Bot
variant — or the failure sentinel `None`.  Exceptions of the HTTP
library are caught inside the loop (`AttemptResult.failure` never
produces a return), so nothing escapes to the caller. -/
theorem C7_make_request :
    (∀ (outcomes : Nat → AttemptResult) (r : HttpResponse),
      make_request outcomes = some r →
      ∃ k, k < 5 ∧ outcomes k = .success r ∧ r.statusCode = 200 ∧
        hitsAuthwall r = false) ∧
    (∀ o1 o2 : Nat → AttemptResult, (∀ k, k < 5 → o1 k = o2 k) →
      make_request o1 = make_request o2) ∧
    (∀ outcomes : Nat → AttemptResult,
      make_request outcomes = none ∨ ∃ r, make_request outcomes = some r) ∧
    (∀ (outcomes : Nat → AttemptResult) (r : HttpResponse),
      make_request_jb outcomes = some r →
      ∃ k, k < 3 ∧ outcomes k = .success r ∧ r.statusCode ≠ 429 ∧
        ¬(400 ≤ r.statusCode ∧ r.statusCode < 600)) ∧
    (∀ o1 o2 : Nat → AttemptResult, (∀ k, k < 3 → o1 k = o2 k) →
      make_request_jb o1 = make_request_jb o2) := by
  refine ⟨?_, ?_, ?_, ?_, ?_⟩
  · intro outcomes r h
    obtain ⟨k, hk, hstep⟩ := requestLoop_some attemptStep outcomes 5 0 r h
    rw [Nat.zero_add] at hstep
    obtain ⟨ha, h200, hwall⟩ := attemptStep_some hstep
    exact ⟨k, hk, ha, h200, hwall⟩
  · intro o1 o2 h
    exact requestLoop_congr attemptStep o1 o2 5 0 (fun k hk => by
      simpa using h k hk)
  · intro outcomes
    cases h : make_request outcomes with
    | none => exact Or.inl rfl
    | some r => exact Or.inr ⟨r, rfl⟩
  · intro outcomes r h
    obtain ⟨k, hk, hstep⟩ := requestLoop_some attemptStepJB outcomes 3 0 r h
    rw [Nat.zero_add] at hstep
    obtain ⟨ha, h429, h4xx⟩ := attemptStepJB_some hstep
    exact ⟨k, hk, ha, h429, h4xx⟩
  · intro o1 o2 h
    exact requestLoop_congr attemptStepJB o1 o2 3 0 (fun k hk => by
      simpa using h k hk)

/-- A clean 200 response used by the C7 witness. -/
def okResponse : HttpResponse :=
  { statusCode := 200, url := "https://www.linkedin.com/jobs/view/analyst-4000000001?x" }

/-- Witness for C7: a constant stream of 200 responses is returned on an
attempt below both retry bounds, in both variants. -/
theorem C7_witness :
    (∃ k, k < 5 ∧ (fun _ => AttemptResult.success okResponse) k =
        AttemptResult.success okResponse ∧ okResponse.statusCode = 200 ∧
        hitsAuthwall okResponse = false) ∧
    (∃ k, k < 3 ∧ (fun _ => AttemptResult.success okResponse) k =
        AttemptResult.success okResponse ∧ okResponse.statusCode ≠ 429 ∧
        ¬(400 ≤ okResponse.statusCode ∧ okResponse.statusCode < 600)) :=
  ⟨C7_make_request.1 (fun _ => .success okResponse) okResponse (by decide),
    C7_make_request.2.2.2.1 (fun _ => .success okResponse) okResponse (by decide)⟩

/-! ### C5: `_get_job_details` and the apply-type fallback

The BeautifulSoup queries the function performs are modelled as fields of
an abstract page structure: each field holds the result of exactly one
`soup.find`-style query (`none` = element absent; for text fields the
stored string is that element's extracted text). -/

/-- The top card (`div.top-card-layout__entity-info`) as queried by the
two variants. -/
structure TopCard where
  /-- Href of the first `a[href][data-tracking-control-name=public_jobs_apply_external]`
  inside the top card (primary variant's query). -/
  applyExternalHref : Option String := none
  /-- Href of the first `a[href]` inside the top card (Job Bot query);
  the code reads `apply_link['href']`. -/
  firstHref : Option String := none
deriving DecidableEq

/-- One `li` of `ul.description__job-criteria-list`. -/
structure CriterionItem where
  /-- Text of `h3.description__job-criteria-subheader`, when present. -/
  header : Option String := none
  /-- Text of `span.description__job-criteria-text`, when present. -/
  value : Option String := none
deriving DecidableEq

/-- A job detail page, as observed through the queries of
`_get_job_details`. -/
structure DetailSoup where
  /-- `div.show-more-less-html__markup` text, when the div is present. -/
  descriptionText : Option String := none
  /-- `ul.description__job-criteria-list` items, when the list is present. -/
  criteriaList : Option (List CriterionItem) := none
  /-- `button.jobs-apply-button` class list (`get('class', [])`), when
  the button is present. -/
  applyButtonClasses : Option (List String) := none
  /-- `div.top-card-layout__entity-info`, when present. -/
  topCard : Option TopCard := none
  /-- `div.salary-main-rail-card__salary-info-container` text. -/
  salaryText : Option String := none
deriving DecidableEq

/-- The `details` dict: keys are present (`some`) or absent (`none`). -/
structure JobDetails where
  description : Option String := none
  experienceLevel : Option String := none
  contractType : Option String := none
  workType : Option String := none
  sector : Option String := none
  applyType : Option String := none
  salary : Option String := none
deriving DecidableEq

/-- Python `str.strip()`: drop leading and trailing whitespace. -/
def stripChars (s : List Char) : List Char :=
  ((s.dropWhile Char.isWhitespace).reverse.dropWhile Char.isWhitespace).reverse

/-- One iteration of the criteria loop: route the criterion value to the
field named by its lower-cased header. -/
def criteriaStep (d : JobDetails) (it : CriterionItem) : JobDetails :=
  match it.header, it.value with
  | some h, some v =>
    if containsSub "seniority level".toList (lowerStr (stripChars h.toList)) then
      { d with experienceLevel := some (String.mk (stripChars v.toList)) }
    else if containsSub "employment type".toList (lowerStr (stripChars h.toList)) then
      { d with contractType := some (String.mk (stripChars v.toList)) }
    else if containsSub "job function".toList (lowerStr (stripChars h.toList)) then
      { d with workType := some (String.mk (stripChars v.toList)) }
    else if containsSub "industries".toList (lowerStr (stripChars h.toList)) then
      { d with sector := some (String.mk (stripChars v.toList)) }
    else d
  | _, _ => d

/-- The criteria loop, skipped when the list element is absent. -/
def applyCriteria (d : JobDetails) : Option (List CriterionItem) → JobDetails
  | none => d
  | some items => items.foldl criteriaStep d

/-- The primary variant's apply-type decision: button class → top-card
external apply link → `UNKNOWN`. -/
def applyTypeAnika (p : DetailSoup) : String :=
  match p.applyButtonClasses with
  | some cs =>
    if cs.contains "jobs-apply-button--easy-apply" then "EASY_APPLY" else "EXTERNAL"
  | none =>
    match p.topCard with
    | some tc =>
      match tc.applyExternalHref with
      | some _ => "EXTERNAL"
      | none => "UNKNOWN"
    | none => "UNKNOWN"

/-- The Job Bot variant's apply-type decision: it writes `EXTERNAL` only
when the top card's first link leads off `linkedin.com`, and writes
NOTHING (`none`) otherwise — there is no `UNKNOWN` arm. -/
def applyTypeJB (p : DetailSoup) : Option String :=
  match p.applyButtonClasses with
  | some cs =>
    some (if cs.contains "jobs-apply-button--easy-apply" then "EASY_APPLY" else "EXTERNAL")
  | none =>
    match p.topCard with
    | some tc =>
      match tc.firstHref with
      | some href =>
        if containsSub "linkedin.com".toList href.toList then none
        else some "EXTERNAL"
      | none => none
    | none => none

/-- `_get_job_details` of the primary variant, applied to fetched markup. -/
def get_job_details (p : DetailSoup) : JobDetails :=
  let d0 : JobDetails := { description := some ((p.descriptionText).getD "") }
  let d1 := applyCriteria d0 p.criteriaList
  let d2 := { d1 with applyType := some (applyTypeAnika p) }
  { d2 with salary := some ((p.salaryText).getD "") }

/-- `_get_job_details` of the Job Bot variant, applied to fetched markup. -/
def get_job_details_jb (p : DetailSoup) : JobDetails :=
  let d0 : JobDetails := { description := some ((p.descriptionText).getD "") }
  let d1 := applyCriteria d0 p.criteriaList
  let d2 :=
    match applyTypeJB p with
    | some t => { d1 with applyType := some t }
    | none => d1
  { d2 with salary := some ((p.salaryText).getD "") }

theorem criteriaStep_applyType (d : JobDetails) (it : CriterionItem) :
    (criteriaStep d it).applyType = d.applyType := by
  unfold criteriaStep
  split
  · split_ifs <;> rfl
  · rfl

theorem applyCriteria_applyType (d : JobDetails) (o : Option (List CriterionItem)) :
    (applyCriteria d o).applyType = d.applyType := by
  cases o with
  | none => rfl
  | some items =>
    induction items generalizing d with
    | nil => rfl
    | cons it rest ih =>
      simp only [applyCriteria, List.foldl_cons]
      rw [show (List.foldl criteriaStep (criteriaStep d it) rest) =
        applyCriteria (criteriaStep d it) (some rest) from rfl]
      rw [ih, criteriaStep_applyType]

theorem get_job_details_applyType (p : DetailSoup) :
    (get_job_details p).applyType = some (applyTypeAnika p) := rfl

theorem get_job_details_jb_applyType (p : DetailSoup) :
    (get_job_details_jb p).applyType = applyTypeJB p := by
  unfold get_job_details_jb
  cases h : applyTypeJB p with
  | some t => simp only [h]
  | none =>
    simp only [h]
    exact applyCriteria_applyType _ _

theorem applyTypeJB_shape (p : DetailSoup) (hb : p.applyButtonClasses = none) :
    applyTypeJB p = none ∨ applyTypeJB p = some "EXTERNAL" := by
  cases htc : p.topCard with
  | none =>
    left
    simp only [applyTypeJB, hb, htc]
  | some tc =>
    cases thf : tc.firstHref with
    | none =>
      left
      simp only [applyTypeJB, hb, htc, thf]
    | some href =>
      by_cases hl : containsSub "linkedin.com".toList href.toList = true
      · left
        simp only [applyTypeJB, hb, htc, thf, if_pos hl]
      · right
        simp only [applyTypeJB, hb, htc, thf, if_neg hl]

theorem applyTypeJB_external_iff (p : DetailSoup) (hb : p.applyButtonClasses = none) :
    applyTypeJB p = some "EXTERNAL" ↔
      ∃ tc href, p.topCard = some tc ∧ tc.firstHref = some href ∧
        containsSub "linkedin.com".toList href.toList = false := by
  cases htc : p.topCard with
  | none =>
    simp only [applyTypeJB, hb, htc]
    constructor
    · intro h
      cases h
    · rintro ⟨tc', href', htc', -, -⟩
      cases htc'
  | some tc =>
    cases thf : tc.firstHref with
    | none =>
      simp only [applyTypeJB, hb, htc, thf]
      constructor
      · intro h
        cases h
      · rintro ⟨tc', href', htc', hf', -⟩
        cases htc'
        rw [thf] at hf'
        cases hf'
    | some href =>
      by_cases hl : containsSub "linkedin.com".toList href.toList = true
      · simp only [applyTypeJB, hb, htc, thf, if_pos hl]
        constructor
        · intro h
          cases h
        · rintro ⟨tc', href', htc', hf', hcon⟩
          cases htc'
          rw [thf] at hf'
          cases hf'
          rw [hl] at hcon
          cases hcon
      · simp only [applyTypeJB, hb, htc, thf, if_neg hl]
        constructor
        · intro _
          exact ⟨tc, href, rfl, thf, Bool.eq_false_iff.mpr hl⟩
        · intro _
          trivial

/-- C5 counterexample: on a detail page with no apply button and no top
card, the Job Bot variant's `details` dict has NO `applyType` key at all
— the claim's "otherwise UNKNOWN; never left unset" fails for that
variant (the primary variant does write `UNKNOWN`). -/
theorem C5_counterexample :
    (get_job_details_jb {}).applyType = none ∧
    (get_job_details {}).applyType = some "UNKNOWN" :=
  ⟨rfl, rfl⟩

/-- C5 (amended): the primary variant always sets `applyType` by the
three-tier fallback — easy-apply button class ↦ `EASY_APPLY`, other
apply button ↦ `EXTERNAL`, no button but an external apply link in the
top card ↦ `EXTERNAL`, otherwise `UNKNOWN`.  The Job Bot variant agrees
on the button tiers, but with no button it sets `EXTERNAL` only when the
top card's first link leads off `linkedin.com`, and otherwise leaves the
`applyType` key unset. -/
theorem C5_apply_type :
    (∀ p : DetailSoup, (get_job_details p).applyType = some (applyTypeAnika p)) ∧
    (∀ p : DetailSoup, applyTypeAnika p = "EASY_APPLY" ∨
      applyTypeAnika p = "EXTERNAL" ∨ applyTypeAnika p = "UNKNOWN") ∧
    (∀ (p : DetailSoup) (cs : List String), p.applyButtonClasses = some cs →
      applyTypeAnika p =
        (if cs.contains "jobs-apply-button--easy-apply" then "EASY_APPLY" else "EXTERNAL")) ∧
    (∀ (p : DetailSoup) (tc : TopCard), p.applyButtonClasses = none →
      p.topCard = some tc → tc.applyExternalHref ≠ none →
      applyTypeAnika p = "EXTERNAL") ∧
    (∀ p : DetailSoup, p.applyButtonClasses = none →
      (p.topCard = none ∨ ∃ tc, p.topCard = some tc ∧ tc.applyExternalHref = none) →
      applyTypeAnika p = "UNKNOWN") ∧
    (∀ (p : DetailSoup) (cs : List String), p.applyButtonClasses = some cs →
      (get_job_details_jb p).applyType =
        some (if cs.contains "jobs-apply-button--easy-apply" then "EASY_APPLY" else "EXTERNAL")) ∧
    (∀ p : DetailSoup, p.applyButtonClasses = none →
      ((get_job_details_jb p).applyType = some "EXTERNAL" ↔
        ∃ tc href, p.topCard = some tc ∧ tc.firstHref = some href ∧
          containsSub "linkedin.com".toList href.toList = false)) ∧
    (∀ p : DetailSoup, p.applyButtonClasses = none →
      ((get_job_details_jb p).applyType = none ↔
        ¬ ∃ tc href, p.topCard = some tc ∧ tc.firstHref = some href ∧
          containsSub "linkedin.com".toList href.toList = false)) := by
  refine ⟨get_job_details_applyType, ?_, ?_, ?_, ?_, ?_, ?_, ?_⟩
  · intro p
    cases hb : p.applyButtonClasses with
    | some cs =>
      simp only [applyTypeAnika, hb]
      split_ifs
      · exact Or.inl rfl
      · exact Or.inr (Or.inl rfl)
    | none =>
      cases htc : p.topCard with
      | none =>
        simp only [applyTypeAnika, hb, htc]
        exact Or.inr (Or.inr trivial)
      | some tc =>
        cases th : tc.applyExternalHref with
        | some h =>
          simp only [applyTypeAnika, hb, htc, th]
          exact Or.inr (Or.inl trivial)
        | none =>
          simp only [applyTypeAnika, hb, htc, th]
          exact Or.inr (Or.inr trivial)
  · intro p cs h
    simp only [applyTypeAnika, h]
  · intro p tc hb htc hhref
    cases hh : tc.applyExternalHref with
    | none => exact absurd hh hhref
    | some href => simp only [applyTypeAnika, hb, htc, hh]
  · intro p hb htc
    rcases htc with htc | ⟨tc, htc, hhref⟩
    · simp only [applyTypeAnika, hb, htc]
    · simp only [applyTypeAnika, hb, htc, hhref]
  · intro p cs h
    rw [get_job_details_jb_applyType]
    simp only [applyTypeJB, h]
  · intro p hb
    rw [get_job_details_jb_applyType]
    exact applyTypeJB_external_iff p hb
  · intro p hb
    rw [get_job_details_jb_applyType]
    rw [← applyTypeJB_external_iff p hb]
    rcases applyTypeJB_shape p hb with h | h <;> rw [h] <;> simp

/-- C5 witness page: an easy-apply button. -/
def easyApplySoup : DetailSoup :=
  { applyButtonClasses := some ["jobs-apply-button", "jobs-apply-button--easy-apply"] }

/-- C5 witness top card: links leading off `linkedin.com`. -/
def externalTopCard : TopCard :=
  { applyExternalHref := some "https://apply.example.com/x",
    firstHref := some "https://apply.example.com/x" }

/-- C5 witness page: no button, an off-site link in the top card. -/
def externalLinkSoup : DetailSoup := { topCard := some externalTopCard }

/-- Witness for C5 at concrete pages. -/
theorem C5_witness :
    applyTypeAnika easyApplySoup = "EASY_APPLY" ∧
    (get_job_details_jb externalLinkSoup).applyType = some "EXTERNAL" :=
  ⟨C5_apply_type.2.2.1 easyApplySoup
      ["jobs-apply-button", "jobs-apply-button--easy-apply"] rfl,
    (C5_apply_type.2.2.2.2.2.2.1 externalLinkSoup rfl).mpr
      ⟨externalTopCard, "https://apply.example.com/x", rfl, rfl, by decide⟩⟩

/-! ### C6: `_parse_job_list`

Each card is modelled by the results of the queries the parser makes on
it, in the same `none` = element-absent convention as the detail page. -/

/-- `h4.base-search-card__subtitle` with its optional inner `a`;
`aHref` is the inner link's `get('href', '')` when that `a` exists. -/
structure CompanyTag where
  text : String := ""
  aHref : Option String := none
deriving DecidableEq

/-- `time.job-search-card__listdate`: text plus `get('datetime', '')`. -/
structure TimeTag where
  text : String := ""
  datetime : String := ""
deriving DecidableEq

/-- `div.base-card` of one result card; `fullLinkHref` is the
`a.base-card__full-link`'s `get('href', '')` when that anchor exists. -/
structure BaseCard where
  fullLinkHref : Option String := none
  title : Option String := none
  companyTag : Option CompanyTag := none
  location : Option String := none
  timeTag : Option TimeTag := none
deriving DecidableEq

/-- One `li` of the results list with the whole-card queries. -/
structure LiCard where
  baseCard : Option BaseCard := none
  /-- `span.job-search-card__applicant-count` text. -/
  applicantCountText : Option String := none
  /-- `span.job-search-card__listdate--new` text (fallback). -/
  listdateNewText : Option String := none
  /-- `span.job-card-list__easy-apply-label` presence (primary variant). -/
  easyApplyLabel : Bool := false
deriving DecidableEq

/-- Acceptance of `re.search(r'[^-]*-(\d+)(?:\?|$)', url)` (primary
variant): the url has a `'-'` followed by a nonempty digit run whose end
is the end of the string or a `'?'` (`[^-]*` matches the empty string, so
it never constrains acceptance; `$` is modelled as end-of-string — urls
hold no newline). -/
def hasJobId : List Char → Bool
  | [] => false
  | c :: cs =>
    if c = '-' then
      (if (cs.takeWhile isDig).isEmpty then hasJobId cs
       else
         match cs.drop (cs.takeWhile isDig).length with
         | [] => true
         | q :: _ => if q = '?' then true else hasJobId cs)
    else hasJobId cs

/-- Acceptance of `re.search(r'-(\d+)\?', url)` (Job Bot variant): a
`'-'`, a nonempty digit run, then a literal `'?'`. -/
def hasJobIdJB : List Char → Bool
  | [] => false
  | c :: cs =>
    if c = '-' then
      (if (cs.takeWhile isDig).isEmpty then hasJobIdJB cs
       else
         match cs.drop (cs.takeWhile isDig).length with
         | '?' :: _ => true
         | _ => hasJobIdJB cs)
    else hasJobIdJB cs

/-- `re.search(r'/company/(\d+)', href)`: at the first position where
`/company/` is followed by a digit, the maximal digit run is group 1. -/
def extractCompanyId : List Char → Option String
  | [] => none
  | c :: cs =>
    if leadsWith "/company/".toList (c :: cs) &&
        !(((c :: cs).drop 9).takeWhile isDig).isEmpty then
      some (String.mk (((c :: cs).drop 9).takeWhile isDig))
    else extractCompanyId cs

/-- The `company_id` computation of the card loop. -/
def companyIdOf : Option CompanyTag → String
  | some ct =>
    (match ct.aHref with
     | some href => (extractCompanyId href.toList).getD ""
     | none => "")
  | none => ""

/-- The record literal built for one accepted card; `applyTy` is the
variant-specific applyType seed (`EASY_APPLY`/`UNKNOWN` for the primary
variant, `''` for the Job Bot variant). -/
def mkJobFromCard (card : LiCard) (bc : BaseCard) (applyTy : String) : Job :=
  { title := (bc.title).getD ""
    location := (bc.location).getD ""
    postedTime :=
      (match bc.timeTag with
       | some t => t.text
       | none => "")
    publishedAt :=
      (match bc.timeTag with
       | some t => t.datetime
       | none => "")
    jobUrl := (bc.fullLinkHref).getD ""
    companyName :=
      (match bc.companyTag with
       | some ct => ct.text
       | none => "")
    companyUrl :=
      (match bc.companyTag with
       | some ct => (ct.aHref).getD ""
       | none => "")
    companyId := companyIdOf bc.companyTag
    applicationsCount :=
      ((card.applicantCountText).orElse (fun _ => card.listdateNewText)).getD "0 applicants"
    description := ""
    contractType := ""
    experienceLevel := ""
    workType := ""
    sector := ""
    salary := ""
    posterFullName := ""
    posterProfileUrl := ""
    applyUrl := (bc.fullLinkHref).getD ""
    applyType := applyTy
    benefits := "" }

/-- The card loop of the primary `_parse_job_list`: a card without a
`div.base-card` or without an extractable numeric job id in its url is
skipped with `continue`. -/
def parseCards : List LiCard → List Job
  | [] => []
  | card :: rest =>
    match card.baseCard with
    | none => parseCards rest
    | some bc =>
      if hasJobId ((bc.fullLinkHref).getD "").toList then
        mkJobFromCard card bc
            (if card.easyApplyLabel then "EASY_APPLY" else "UNKNOWN") ::
          parseCards rest
      else parseCards rest

/-- `_parse_job_list` of the primary scraper.  The argument is the first
`ul.jobs-search__results-list` with its `li` children, `none` when the
page has no such container (the code re-queries the same selector as a
"fallback", which therefore can never succeed when the first query
failed, and returns `[]`). -/
def parse_job_list : Option (List LiCard) → List Job
  | none => []
  | some cards => parseCards cards

/-- The card loop of the Job Bot `_parse_job_list` (no easy-apply label
query; `applyType` seeded with `''`; the stricter id regex). -/
def parseCardsJB : List LiCard → List Job
  | [] => []
  | card :: rest =>
    match card.baseCard with
    | none => parseCardsJB rest
    | some bc =>
      if hasJobIdJB ((bc.fullLinkHref).getD "").toList then
        mkJobFromCard card bc "" :: parseCardsJB rest
      else parseCardsJB rest

/-- `_parse_job_list` of the Job Bot variant: it iterates every `li` of
the document (`soup.find_all('li')`), with no container requirement. -/
def parse_job_list_jb (lis : List LiCard) : List Job := parseCardsJB lis

/-- A card is accepted by the primary variant when its base card exists
and its link url yields a job id. -/
def validCard (c : LiCard) : Bool :=
  match c.baseCard with
  | none => false
  | some bc => hasJobId ((bc.fullLinkHref).getD "").toList

/-- Acceptance for the Job Bot variant. -/
def validCardJB (c : LiCard) : Bool :=
  match c.baseCard with
  | none => false
  | some bc => hasJobIdJB ((bc.fullLinkHref).getD "").toList

theorem parseCards_cons_none {c : LiCard} (rest : List LiCard)
    (hb : c.baseCard = none) : parseCards (c :: rest) = parseCards rest := by
  simp only [parseCards, hb]

theorem parseCards_cons_invalid {c : LiCard} {bc : BaseCard} (rest : List LiCard)
    (hb : c.baseCard = some bc)
    (hv : hasJobId ((bc.fullLinkHref).getD "").toList = false) :
    parseCards (c :: rest) = parseCards rest := by
  simp only [parseCards, hb, hv, Bool.false_eq_true, if_false]

theorem parseCards_cons_valid {c : LiCard} {bc : BaseCard} (rest : List LiCard)
    (hb : c.baseCard = some bc)
    (hv : hasJobId ((bc.fullLinkHref).getD "").toList = true) :
    parseCards (c :: rest) =
      mkJobFromCard c bc (if c.easyApplyLabel then "EASY_APPLY" else "UNKNOWN") ::
        parseCards rest := by
  simp only [parseCards, hb, hv, if_true]

theorem parseCardsJB_cons_none {c : LiCard} (rest : List LiCard)
    (hb : c.baseCard = none) : parseCardsJB (c :: rest) = parseCardsJB rest := by
  simp only [parseCardsJB, hb]

theorem parseCardsJB_cons_invalid {c : LiCard} {bc : BaseCard} (rest : List LiCard)
    (hb : c.baseCard = some bc)
    (hv : hasJobIdJB ((bc.fullLinkHref).getD "").toList = false) :
    parseCardsJB (c :: rest) = parseCardsJB rest := by
  simp only [parseCardsJB, hb, hv, Bool.false_eq_true, if_false]

theorem parseCardsJB_cons_valid {c : LiCard} {bc : BaseCard} (rest : List LiCard)
    (hb : c.baseCard = some bc)
    (hv : hasJobIdJB ((bc.fullLinkHref).getD "").toList = true) :
    parseCardsJB (c :: rest) = mkJobFromCard c bc "" :: parseCardsJB rest := by
  simp only [parseCardsJB, hb, hv, if_true]

theorem validCard_eq_false_of_none {c : LiCard} (hb : c.baseCard = none) :
    validCard c = false := by
  simp only [validCard, hb]

theorem validCard_eq_of_some {c : LiCard} {bc : BaseCard} (hb : c.baseCard = some bc) :
    validCard c = hasJobId ((bc.fullLinkHref).getD "").toList := by
  simp only [validCard, hb]

theorem validCardJB_eq_false_of_none {c : LiCard} (hb : c.baseCard = none) :
    validCardJB c = false := by
  simp only [validCardJB, hb]

theorem validCardJB_eq_of_some {c : LiCard} {bc : BaseCard} (hb : c.baseCard = some bc) :
    validCardJB c = hasJobIdJB ((bc.fullLinkHref).getD "").toList := by
  simp only [validCardJB, hb]

theorem parseCards_length (cards : List LiCard) :
    (parseCards cards).length = (cards.filter validCard).length := by
  induction cards with
  | nil => rfl
  | cons c rest ih =>
    cases hb : c.baseCard with
    | none =>
      rw [parseCards_cons_none rest hb,
        List.filter_cons_of_neg (by simp [validCard_eq_false_of_none hb])]
      exact ih
    | some bc =>
      cases hv : hasJobId ((bc.fullLinkHref).getD "").toList with
      | false =>
        have hvc : validCard c = false := by
          rw [validCard_eq_of_some hb]
          exact hv
        rw [parseCards_cons_invalid rest hb hv,
          List.filter_cons_of_neg (by simp [hvc])]
        exact ih
      | true =>
        have hvc : validCard c = true := by
          rw [validCard_eq_of_some hb]
          exact hv
        rw [parseCards_cons_valid rest hb hv,
          List.filter_cons_of_pos (by simp [hvc])]
        simp only [List.length_cons, ih]

theorem parseCards_skip (bad : LiCard) (hbad : validCard bad = false) :
    ∀ pre post : List LiCard,
      parseCards (pre ++ bad :: post) = parseCards (pre ++ post) := by
  intro pre
  induction pre with
  | nil =>
    intro post
    cases hb : bad.baseCard with
    | none => exact parseCards_cons_none post hb
    | some bc =>
      rw [validCard_eq_of_some hb] at hbad
      exact parseCards_cons_invalid post hb hbad
  | cons c pre' ih =>
    intro post
    cases hb : c.baseCard with
    | none =>
      simp only [List.cons_append]
      rw [parseCards_cons_none _ hb, parseCards_cons_none _ hb]
      exact ih post
    | some bc =>
      cases hv : hasJobId ((bc.fullLinkHref).getD "").toList with
      | false =>
        simp only [List.cons_append]
        rw [parseCards_cons_invalid _ hb hv, parseCards_cons_invalid _ hb hv]
        exact ih post
      | true =>
        simp only [List.cons_append]
        rw [parseCards_cons_valid _ hb hv, parseCards_cons_valid _ hb hv, ih post]

theorem parseCardsJB_length (cards : List LiCard) :
    (parseCardsJB cards).length = (cards.filter validCardJB).length := by
  induction cards with
  | nil => rfl
  | cons c rest ih =>
    cases hb : c.baseCard with
    | none =>
      rw [parseCardsJB_cons_none rest hb,
        List.filter_cons_of_neg (by simp [validCardJB_eq_false_of_none hb])]
      exact ih
    | some bc =>
      cases hv : hasJobIdJB ((bc.fullLinkHref).getD "").toList with
      | false =>
        have hvc : validCardJB c = false := by
          rw [validCardJB_eq_of_some hb]
          exact hv
        rw [parseCardsJB_cons_invalid rest hb hv,
          List.filter_cons_of_neg (by simp [hvc])]
        exact ih
      | true =>
        have hvc : validCardJB c = true := by
          rw [validCardJB_eq_of_some hb]
          exact hv
        rw [parseCardsJB_cons_valid rest hb hv,
          List.filter_cons_of_pos (by simp [hvc])]
        simp only [List.length_cons, ih]

theorem parseCardsJB_skip (bad : LiCard) (hbad : validCardJB bad = false) :
    ∀ pre post : List LiCard,
      parseCardsJB (pre ++ bad :: post) = parseCardsJB (pre ++ post) := by
  intro pre
  induction pre with
  | nil =>
    intro post
    cases hb : bad.baseCard with
    | none => exact parseCardsJB_cons_none post hb
    | some bc =>
      rw [validCardJB_eq_of_some hb] at hbad
      exact parseCardsJB_cons_invalid post hb hbad
  | cons c pre' ih =>
    intro post
    cases hb : c.baseCard with
    | none =>
      simp only [List.cons_append]
      rw [parseCardsJB_cons_none _ hb, parseCardsJB_cons_none _ hb]
      exact ih post
    | some bc =>
      cases hv : hasJobIdJB ((bc.fullLinkHref).getD "").toList with
      | false =>
        simp only [List.cons_append]
        rw [parseCardsJB_cons_invalid _ hb hv, parseCardsJB_cons_invalid _ hb hv]
        exact ih post
      | true =>
        simp only [List.cons_append]
        rw [parseCardsJB_cons_valid _ hb hv, parseCardsJB_cons_valid _ hb hv,
          ih post]

/-- Company tag of the first C6 example card. -/
def acmeCompanyTag : CompanyTag :=
  { text := "Acme Corp",
    aHref := some "https://www.linkedin.com/company/12345?trk=x" }

/-- Base card of the first C6 example card. -/
def validBase1 : BaseCard :=
  { fullLinkHref := some "https://www.linkedin.com/jobs/view/financial-analyst-4000000001?refId=1",
    title := some "Financial Analyst",
    companyTag := some acmeCompanyTag,
    location := some "Pune, Maharashtra, India",
    timeTag := some { text := "2 days ago", datetime := "2025-10-01" } }

/-- A fully populated valid card for the C6 example. -/
def validCard1 : LiCard :=
  { baseCard := some validBase1,
    applicantCountText := some "Be among the first 25 applicants" }

/-- Base card of the second C6 example card. -/
def validBase2 : BaseCard :=
  { fullLinkHref := some "https://www.linkedin.com/jobs/view/fpa-manager-4000000002?refId=2",
    title := some "FPA Manager" }

/-- A second valid card for the C6 example. -/
def validCard2 : LiCard :=
  { baseCard := some validBase2,
    listdateNewText := some "New",
    easyApplyLabel := true }

/-- The malformed card of the C6 example: a base card exists but its link
is missing, so `job_url` is `''` and no job id can be extracted. -/
def cardMissingLink : LiCard := { baseCard := some {} }

/-- C6: both `_parse_job_list` variants are total (never raise): a page
with no matching list container yields `[]` in the primary variant (and
an empty card sequence yields `[]` in both); a card missing its base
container, its link, or an extractable job id is silently skipped while
every well-formed card yields exactly one record; on the concrete page
with 2 valid cards and 1 card missing its link, exactly 2 records come
back in both variants. -/
theorem C6_parse_job_list :
    parse_job_list none = [] ∧
    parse_job_list (some []) = [] ∧
    parse_job_list_jb [] = [] ∧
    (∀ cards : List LiCard,
      (parse_job_list (some cards)).length = (cards.filter validCard).length) ∧
    (∀ (bad : LiCard) (pre post : List LiCard), validCard bad = false →
      parse_job_list (some (pre ++ bad :: post)) = parse_job_list (some (pre ++ post))) ∧
    (∀ lis : List LiCard,
      (parse_job_list_jb lis).length = (lis.filter validCardJB).length) ∧
    (∀ (bad : LiCard) (pre post : List LiCard), validCardJB bad = false →
      parse_job_list_jb (pre ++ bad :: post) = parse_job_list_jb (pre ++ post)) ∧
    (parse_job_list (some [validCard1, cardMissingLink, validCard2])).length = 2 ∧
    (parse_job_list_jb [validCard1, cardMissingLink, validCard2]).length = 2 := by
  refine ⟨rfl, rfl, rfl, ?_, ?_, ?_, ?_, by decide, by decide⟩
  · exact parseCards_length
  · intro bad pre post hbad
    exact parseCards_skip bad hbad pre post
  · exact parseCardsJB_length
  · intro bad pre post hbad
    exact parseCardsJB_skip bad hbad pre post

/-- Witness for C6: the skip equations at the concrete malformed card. -/
theorem C6_witness :
    parse_job_list (some ([validCard1] ++ cardMissingLink :: [validCard2])) =
      parse_job_list (some ([validCard1] ++ [validCard2])) ∧
    parse_job_list_jb ([validCard1] ++ cardMissingLink :: [validCard2]) =
      parse_job_list_jb ([validCard1] ++ [validCard2]) :=
  ⟨C6_parse_job_list.2.2.2.2.1 cardMissingLink [validCard1] [validCard2] (by decide),
    C6_parse_job_list.2.2.2.2.2.2.1 cardMissingLink [validCard1] [validCard2] (by decide)⟩

/-! ### C8: the exporters

A record is the dict the exporter receives: an insertion-ordered list of
`(key, value)` string pairs (`dict.keys()` follows insertion order, and
`csv.DictWriter(fieldnames=list(jobs[0].keys()))` takes the first
record's keys as the header).  The model returns `some payload` when the
function opens and writes the file — the payload is what determines the
file's content — and `none` when it returns without touching the file. -/

/-- `save_to_json` (identical in both variants): there is NO empty-list
guard — `open(...)` and `json.dump(jobs, ...)` run unconditionally, so
even `[]` produces a file holding an empty JSON array. -/
def save_to_json (jobs : List (List (String × String))) :
    Option (List (List (String × String))) :=
  some jobs

/-- `save_to_csv` (identical in both variants): `if not jobs: warning;
return` — no file for the empty list; otherwise the header row is the
first record's key list and every record is written as a row. -/
def save_to_csv (jobs : List (List (String × String))) :
    Option (List String × List (List (String × String))) :=
  match jobs with
  | [] => none
  | j :: _ => some (j.map Prod.fst, jobs)

/-- C8 counterexample: the claim says neither file is written for an
empty record list, but `save_to_json` has no guard: it writes the file
(an empty JSON array) while `save_to_csv` alone is the no-op. -/
theorem C8_counterexample :
    save_to_json ([] : List (List (String × String))) = some [] ∧
    save_to_csv ([] : List (List (String × String))) = none :=
  ⟨rfl, rfl⟩

/-- C8 (amended): on an empty record list the CSV exporter is a no-op
with a warning, but the JSON exporter still writes its file, holding an
empty array; `save_to_json` always writes exactly the record list it was
given, and for a non-empty list the CSV header row equals the first
record's field set with the records as rows. -/
theorem C8_exporters :
    save_to_csv ([] : List (List (String × String))) = none ∧
    (∀ jobs : List (List (String × String)), save_to_json jobs = some jobs) ∧
    (∀ (j : List (String × String)) (rest : List (List (String × String))),
      save_to_csv (j :: rest) = some (j.map Prod.fst, j :: rest)) :=
  ⟨rfl, fun _ => rfl, fun _ _ => rfl⟩

end JobBot
